import Mathlib

/-!
Shallow embedding of the chi-http-slog request-logging middleware
(src/httplog.go and src/config.go), together with proofs about its
severity mapping, header redaction, log-entry lifecycle, option
evaluation and context-store helpers.

Modelling conventions:
* `slog.Level` is an integer severity (as in Go's log/slog).
* A `slog.Logger` is modelled by the list of attributes it has
  accumulated through `With`; `LogAttrs` emits a `Record`.
* `map[string][]string` (http.Header) is an association list whose
  keys are pairwise distinct, as Go map keys are.
* `map[string]struct{}` is a list of keys; a `nil` map is `none`,
  a non-nil map is `some keys`.
* Go run-time panics (failed type assertion, write to a nil map) are
  modelled with `Except GoPanic` / explicit panic markers.
-/

namespace HttpSlog

/-- slog.Level, an integer severity (log/slog represents levels as ints). -/
abbrev Level := Int

/-- config.go: LevelTrace slog.Level = -8 -/
def LevelTrace : Level := -8

/-- config.go: LevelDebug slog.Level = -4 -/
def LevelDebug : Level := -4

/-- config.go: LevelInfo slog.Level = 0 -/
def LevelInfo : Level := 0

/-- config.go: LevelWarn slog.Level = 4 -/
def LevelWarn : Level := 4

/-- config.go: LevelError slog.Level = 8 -/
def LevelError : Level := 8

/-- config.go: LevelFatal slog.Level = 12 -/
def LevelFatal : Level := 12

/-- src/httplog.go `toLogLevel`: maps an HTTP status code to a slog level,
following the Go switch branch by branch. -/
def toLogLevel (status : Int) : Level :=
  if status ≤ 0 then LevelWarn
  else if status < 400 then LevelInfo
  else if 400 ≤ status ∧ status < 500 then LevelWarn
  else if status ≥ 500 then LevelError
  else LevelInfo

/-- A structured attribute value: slog string/int values and groups. -/
inductive AttrValue where
  | str : String → AttrValue
  | int : Int → AttrValue
  | group : List (String × AttrValue) → AttrValue

/-- A slog attribute: key and value. -/
abbrev Attr := String × AttrValue

/-- A *slog.Logger handle, modelled by the attributes accumulated via With. -/
structure Logger where
  attrs : List Attr

/-- slog: `l.With(attrs...)` returns a handle carrying the prior attributes
plus the new ones. -/
def Logger.With (l : Logger) (new : List Attr) : Logger :=
  ⟨l.attrs ++ new⟩

/-- slog.Default(), a base handle with no accumulated attributes. -/
def slogDefault : Logger := ⟨[]⟩

/-- One structured record emitted by `LogAttrs`. -/
structure Record where
  level : Level
  msg : String
  attrs : List Attr

/-- http.Header: a Go map from header name to ordered value slice,
modelled as an association list with pairwise-distinct keys. -/
abbrev Header := List (String × List String)

/-- A Go `map[string]struct{}`: `none` is a nil map, `some keys` a live set. -/
abbrev StrSet := Option (List String)

/-- Go map lookup `_, ok := sensitive[k]`: false on a nil map. -/
def memberOfSet (s : StrSet) (k : String) : Bool :=
  match s with
  | none => false
  | some m => m.contains k

/-- Go strings.ToLower, modelled character-wise (the ASCII case mapping,
which agrees with Go's on header names); written as a structural map so it
evaluates by kernel reduction. -/
def strToLower (s : String) : String :=
  String.mk (s.data.map Char.toLower)

/-- Go strings.Join: concatenates the elements with the separator between
adjacent elements. -/
def stringsJoin (elems : List String) (sep : String) : String :=
  match elems with
  | [] => ""
  | [e] => e
  | e :: rest => e ++ sep ++ stringsJoin rest sep

/-- The loop body of src/httplog.go `httpHeaderAttrs`: builds the list of
attributes inside the "headers" group. For each header key (lower-cased)
the Go switch: skip if sensitive and not leaking, skip if no values,
single value emitted bare, several values rendered with
`fmt.Sprintf("[%s]", strings.Join(v, "], ["))`. -/
def headerAttrList : Header → Bool → StrSet → List Attr
  | [], _, _ => []
  | (k0, v) :: rest, leak, sensitive =>
    if memberOfSet sensitive (strToLower k0) && !leak then headerAttrList rest leak sensitive
    else match v with
      | [] => headerAttrList rest leak sensitive
      | [v0] => (strToLower k0, AttrValue.str v0) :: headerAttrList rest leak sensitive
      | v => (strToLower k0, AttrValue.str ("[" ++ stringsJoin v "], [" ++ "]")) :: headerAttrList rest leak sensitive

/-- src/httplog.go `httpHeaderAttrs`: the attribute list wrapped as the
slog group named "headers". -/
def httpHeaderAttrs (header : Header) (leak : Bool) (sensitive : StrSet) : Attr :=
  ("headers", AttrValue.group (headerAttrList header leak sensitive))

/-- Models the external net/http `StatusText` collaborator at its interface
boundary: the standard reason phrase for a status code, empty when unknown
(spec: reason-phrase lookup yields an empty string rather than failing). -/
def statusText (status : Int) : String :=
  if status = 200 then "OK"
  else if status = 201 then "Created"
  else if status = 204 then "No Content"
  else if status = 301 then "Moved Permanently"
  else if status = 400 then "Bad Request"
  else if status = 401 then "Unauthorized"
  else if status = 403 then "Forbidden"
  else if status = 404 then "Not Found"
  else if status = 500 then "Internal Server Error"
  else if status = 502 then "Bad Gateway"
  else if status = 503 then "Service Unavailable"
  else ""

/-- src/httplog.go `LogEntry`: the per-request mutable logging context. -/
structure LogEntry where
  l : Logger
  msg : String
  concise : Bool
  sensitive : StrSet
  leak : Bool

/-- An inbound *http.Request, restricted to the fields the middleware reads.
`reqID` is the value of the external `middleware.GetReqID(r.Context())`
collaborator (empty string when no correlation id was assigned). -/
structure Request where
  requestURI : String
  method : String
  host : String
  path : String
  proto : String
  remoteAddr : String
  header : Header
  reqID : String

/-- src/httplog.go `LogEntry.Write`: builds the "response" group
(size, status code/msg, and the response headers unless concise), attaches
it to the accumulating handle, and emits exactly one record at
`toLogLevel status` with the "<status> <text>" message (suffixed with
" - <msg>" when a message suffix is set). Returns the updated entry and the
list of records emitted by the call. `elapsed` and `extra` are accepted and
ignored, as in the Go signature. -/
def LogEntry.Write (le : LogEntry) (status bytes : Int) (header : Header)
    (elapsed : Int) (extra : Unit) : LogEntry × List Record :=
  let responseAttr : List Attr :=
    [("size", AttrValue.int bytes),
     ("status", AttrValue.group
       [("code", AttrValue.int status),
        ("msg", AttrValue.str (statusText status))])]
  let responseAttr :=
    if !le.concise then responseAttr ++ [httpHeaderAttrs header le.leak le.sensitive]
    else responseAttr
  let l := le.l.With [("response", AttrValue.group responseAttr)]
  let msg := toString status ++ " " ++ statusText status
  let msg := if le.msg ≠ "" then msg ++ " - " ++ le.msg else msg
  let _ := elapsed
  let _ := extra
  ({ le with l := l }, [{ level := toLogLevel status, msg := msg, attrs := l.attrs }])

/-- src/httplog.go `LogEntry.Panic`: attaches the stacktrace and the rendered
panic value (`v` stands for the `fmt.Sprintf("%+v", v)` rendering) to the
accumulating handle; emits no record. -/
def LogEntry.Panic (le : LogEntry) (v : String) (stack : String) : LogEntry × List Record :=
  ({ le with l := le.l.With [("stacktrace", AttrValue.str stack), ("panic", AttrValue.str v)] }, [])

/-- src/httplog.go `LogEntry.req`: attaches the correlation `id` (when
non-empty) and the "request" group — always `uri` and `method`, plus
`host`/`path`/`proto`/`remote` and the request headers when not concise. -/
def LogEntry.req (le : LogEntry) (r : Request) : LogEntry :=
  let le := if r.reqID ≠ "" then { le with l := le.l.With [("id", AttrValue.str r.reqID)] } else le
  let requestAttr : List Attr :=
    [("uri", AttrValue.str r.requestURI),
     ("method", AttrValue.str r.method)]
  let requestAttr :=
    if !le.concise then
      requestAttr ++
        [("host", AttrValue.str r.host),
         ("path", AttrValue.str r.path),
         ("proto", AttrValue.str r.proto),
         ("remote", AttrValue.str r.remoteAddr),
         httpHeaderAttrs r.header le.leak le.sensitive]
    else requestAttr
  { le with l := le.l.With [("request", AttrValue.group requestAttr)] }

/-- A Go run-time panic relevant to this code: a failed type assertion
(`x.(*LogEntry)` on a value that is not a *LogEntry) or an assignment to a
nil map (`s[k] = struct{}{}` with `s == nil`). -/
inductive GoPanic where
  | typeAssertionFailed
  | nilMapWrite
deriving DecidableEq

/-- The request context's LogEntry slot (chi's `middleware.LogEntryCtxKey`
store): `none` when the logging middleware did not install an entry. chi's
`middleware.GetLogEntry` reads this slot with a comma-ok assertion, so it
hands back exactly this option. -/
abbrev CtxStore := Option LogEntry

/-- Go type assertion without comma-ok: yields the value, or panics when the
interface value is nil / not of the asserted type. -/
def typeAssert (v : Option LogEntry) : Except GoPanic LogEntry :=
  match v with
  | some e => Except.ok e
  | none => Except.error GoPanic.typeAssertionFailed

/-- src/httplog.go `GetLogEntry`: `middleware.GetLogEntry(r).(*LogEntry)` —
an unchecked type assertion on the store's content — then returns the
entry's logger handle. -/
def GetLogEntry (store : CtxStore) : Except GoPanic Logger :=
  (typeAssert store).map (fun entry => entry.l)

/-- src/httplog.go `LogEntrySetAttr`: comma-ok assertion on the context
slot; when an entry is present its handle is replaced by
`entry.l.With(attr)`, otherwise nothing happens. Returns the store after
the call. -/
def LogEntrySetAttr (store : CtxStore) (attr : Attr) : CtxStore :=
  match store with
  | some entry => some { entry with l := entry.l.With [attr] }
  | none => store

/-- src/httplog.go `loggerOptions`: the middleware configuration. -/
structure loggerOptions where
  l : Logger
  concise : Bool
  sensitive : StrSet
  leak : Bool

/-- Go `if k ∈ m then m else m ∪ {k}`: the effect of `m[k] = struct{}{}`
on a live map, modelled on the key list. -/
def insertKey (m : List String) (k : String) : List String :=
  if k ∈ m then m else m ++ [k]

/-- src/httplog.go `WithSensitive`: copies the caller's map `s` into
`o.sensitive` (a nil `s` yields a fresh empty set), then writes the three
default keys "authorization", "cookie", "set-cookie" INTO THE CALLER'S MAP
`s`. With `s = nil` those writes hit a nil map and panic; the error carries
the options as already mutated at the point of the panic. On success the
result carries the caller's map as mutated by the call together with the
updated options. -/
def WithSensitive (s : StrSet) (o : loggerOptions) :
    Except (GoPanic × loggerOptions) (StrSet × loggerOptions) :=
  match s with
  | none =>
    let o := { o with sensitive := some [] }
    Except.error (GoPanic.nilMapWrite, o)
  | some m =>
    let copied := m
    let o := { o with sensitive := some copied }
    let s := insertKey m "authorization"
    let s := insertKey s "cookie"
    let s := insertKey s "set-cookie"
    Except.ok (some s, o)

/-- src/httplog.go functional options, as the data of which setter was
passed to `RequestLogger`. -/
inductive LoggerOption where
  | withLogger : Logger → LoggerOption
  | withConcise : Bool → LoggerOption
  | withSensitive : StrSet → LoggerOption
  | withLeak : Bool → LoggerOption

/-- Application of one functional option to the options record
(src/httplog.go `WithLogger` / `WithConcise` / `WithSensitive` /
`WithLeak`); `WithSensitive` may panic on a nil map. -/
def applyLoggerOption (o : loggerOptions) : LoggerOption → Except GoPanic loggerOptions
  | LoggerOption.withLogger l => Except.ok { o with l := l }
  | LoggerOption.withConcise c => Except.ok { o with concise := c }
  | LoggerOption.withSensitive s =>
    match WithSensitive s o with
    | Except.ok (_, o2) => Except.ok o2
    | Except.error (p, _) => Except.error p
  | LoggerOption.withLeak b => Except.ok { o with leak := b }

/-- src/httplog.go `evaluateLoggerOptions`: the defaults
(slog.Default(), concise=false, sensitive=nil, leak=false) with each option
applied in order. -/
def evaluateLoggerOptions (opts : List LoggerOption) : Except GoPanic loggerOptions :=
  opts.foldlM applyLoggerOption
    { l := slogDefault, concise := false, sensitive := none, leak := false }

/-- src/httplog.go `loggerOptions.NewLogEntry`: one fresh entry per inbound
request, carrying the captured configuration, with the request group
attached immediately. -/
def loggerOptions.NewLogEntry (o : loggerOptions) (r : Request) : LogEntry :=
  LogEntry.req
    { l := o.l, msg := "", concise := o.concise, sensitive := o.sensitive, leak := o.leak } r

/-- The value rendering described by the spec for the header redactor:
a single value is emitted bare; several values are each individually
bracketed and joined with ", ". -/
def specValueRendering (vs : List String) : String :=
  match vs with
  | [v] => v
  | _ => stringsJoin (vs.map (fun v => "[" ++ v ++ "]")) ", "

theorem string_append_assoc (a b c : String) : a ++ b ++ c = a ++ (b ++ c) := by
  apply String.ext
  simp [String.data_append]

theorem stringsJoin_cons_cons (e f : String) (r : List String) (sep : String) :
    stringsJoin (e :: f :: r) sep = e ++ sep ++ stringsJoin (f :: r) sep := rfl

theorem bracket_join (v0 : String) (vs : List String) :
    "[" ++ stringsJoin (v0 :: vs) "], [" ++ "]"
      = stringsJoin ((v0 :: vs).map (fun v => "[" ++ v ++ "]")) ", " := by
  induction vs generalizing v0 with
  | nil => rfl
  | cons v1 vs ih =>
    simp only [List.map_cons] at ih ⊢
    rw [stringsJoin_cons_cons, stringsJoin_cons_cons, ← ih v1]
    apply String.ext
    have h3 : ("], [" : String).data
        = ("]" : String).data ++ (", " : String).data ++ ("[" : String).data := rfl
    simp [String.data_append, h3, List.append_assoc]

theorem mem_insertKey (m : List String) (a k : String) :
    k ∈ insertKey m a ↔ (k ∈ m ∨ k = a) := by
  unfold insertKey
  split
  · constructor
    · exact Or.inl
    · rintro (h | rfl)
      · exact h
      · assumption
  · simp [List.mem_append]

theorem headerAttrList_cons_sensitive (k0 : String) (v : List String) (rest : Header)
    (leak : Bool) (sensitive : StrSet)
    (h : (memberOfSet sensitive (strToLower k0) && !leak) = true) :
    headerAttrList ((k0, v) :: rest) leak sensitive = headerAttrList rest leak sensitive := by
  simp only [headerAttrList, h, if_true]

theorem headerAttrList_cons_empty (k0 : String) (rest : Header)
    (leak : Bool) (sensitive : StrSet) :
    headerAttrList ((k0, []) :: rest) leak sensitive = headerAttrList rest leak sensitive := by
  simp only [headerAttrList]
  split <;> rfl

theorem headerAttrList_cons_single (k0 v0 : String) (rest : Header)
    (leak : Bool) (sensitive : StrSet)
    (h : (memberOfSet sensitive (strToLower k0) && !leak) = false) :
    headerAttrList ((k0, [v0]) :: rest) leak sensitive
      = (strToLower k0, AttrValue.str v0) :: headerAttrList rest leak sensitive := by
  simp only [headerAttrList, h, Bool.false_eq_true, if_false]

theorem headerAttrList_cons_multi (k0 v0 v1 : String) (vr : List String) (rest : Header)
    (leak : Bool) (sensitive : StrSet)
    (h : (memberOfSet sensitive (strToLower k0) && !leak) = false) :
    headerAttrList ((k0, v0 :: v1 :: vr) :: rest) leak sensitive
      = (strToLower k0, AttrValue.str ("[" ++ stringsJoin (v0 :: v1 :: vr) "], [" ++ "]"))
          :: headerAttrList rest leak sensitive := by
  simp only [headerAttrList, h, Bool.false_eq_true, if_false]

theorem headerAttrList_keys_subset (header : Header) (leak : Bool) (sensitive : StrSet) :
    ∀ a ∈ headerAttrList header leak sensitive,
      a.1 ∈ header.map (fun kv => strToLower kv.1) := by
  induction header with
  | nil => simp [headerAttrList]
  | cons kv rest ih =>
    intro a ha
    obtain ⟨k0, v⟩ := kv
    simp only [List.map_cons, List.mem_cons]
    by_cases hok : (memberOfSet sensitive (strToLower k0) && !leak) = true
    · rw [headerAttrList_cons_sensitive k0 v rest leak sensitive hok] at ha
      exact Or.inr (ih a ha)
    · have hok' := Bool.not_eq_true _ |>.mp hok
      match v with
      | [] =>
        rw [headerAttrList_cons_empty k0 rest leak sensitive] at ha
        exact Or.inr (ih a ha)
      | [v0] =>
        rw [headerAttrList_cons_single k0 v0 rest leak sensitive hok'] at ha
        rcases List.mem_cons.mp ha with rfl | ha
        · exact Or.inl rfl
        · exact Or.inr (ih a ha)
      | v0 :: v1 :: vr =>
        rw [headerAttrList_cons_multi k0 v0 v1 vr rest leak sensitive hok'] at ha
        rcases List.mem_cons.mp ha with rfl | ha
        · exact Or.inl rfl
        · exact Or.inr (ih a ha)

theorem headerAttrList_key_not_sensitive (header : Header) (sensitive : StrSet) :
    ∀ a ∈ headerAttrList header false sensitive, memberOfSet sensitive a.1 = false := by
  induction header with
  | nil => simp [headerAttrList]
  | cons kv rest ih =>
    intro a ha
    obtain ⟨k0, v⟩ := kv
    by_cases hok : (memberOfSet sensitive (strToLower k0) && !false) = true
    · rw [headerAttrList_cons_sensitive k0 v rest false sensitive hok] at ha
      exact ih a ha
    · have hok' := Bool.not_eq_true _ |>.mp hok
      have hns : memberOfSet sensitive (strToLower k0) = false := by
        simpa using hok'
      match v with
      | [] =>
        rw [headerAttrList_cons_empty k0 rest false sensitive] at ha
        exact ih a ha
      | [v0] =>
        rw [headerAttrList_cons_single k0 v0 rest false sensitive hok'] at ha
        rcases List.mem_cons.mp ha with rfl | ha
        · exact hns
        · exact ih a ha
      | v0 :: v1 :: vr =>
        rw [headerAttrList_cons_multi k0 v0 v1 vr rest false sensitive hok'] at ha
        rcases List.mem_cons.mp ha with rfl | ha
        · exact hns
        · exact ih a ha

theorem headerAttrList_count_one (header : Header) (sensitive : StrSet)
    (hnodup : (header.map (fun kv => strToLower kv.1)).Nodup) :
    ∀ kv ∈ header, kv.2 ≠ [] → memberOfSet sensitive (strToLower kv.1) = false →
      ((headerAttrList header false sensitive).map Prod.fst).count (strToLower kv.1) = 1 := by
  induction header with
  | nil => simp
  | cons hd rest ih =>
    obtain ⟨k0, v⟩ := hd
    simp only [List.map_cons, List.nodup_cons] at hnodup
    obtain ⟨hk0, hrest⟩ := hnodup
    intro kv hkv hne hns
    rcases List.mem_cons.mp hkv with rfl | hkv
    · have hok : (memberOfSet sensitive (strToLower k0) && !false) = false := by
        simp [hns]
      have h0 : ((headerAttrList rest false sensitive).map Prod.fst).count (strToLower k0) = 0 := by
        rw [List.count_eq_zero]
        intro hmem
        obtain ⟨a, ha, he⟩ := List.mem_map.mp hmem
        exact hk0 (he ▸ headerAttrList_keys_subset rest false sensitive a ha)
      match v, hne with
      | [], hne => exact absurd rfl hne
      | [v0], _ =>
        rw [headerAttrList_cons_single k0 v0 rest false sensitive hok]
        simp [List.count_cons, h0]
      | v0 :: v1 :: vr, _ =>
        rw [headerAttrList_cons_multi k0 v0 v1 vr rest false sensitive hok]
        simp [List.count_cons, h0]
    · have htail := ih hrest kv hkv hne hns
      have hkne : strToLower kv.1 ≠ strToLower k0 := by
        intro he
        exact hk0 (he ▸ List.mem_map_of_mem (fun kv => strToLower kv.1) hkv)
      by_cases hok : (memberOfSet sensitive (strToLower k0) && !false) = true
      · rw [headerAttrList_cons_sensitive k0 v rest false sensitive hok]
        exact htail
      · have hok' := Bool.not_eq_true _ |>.mp hok
        match v with
        | [] =>
          rw [headerAttrList_cons_empty k0 rest false sensitive]
          exact htail
        | [v0] =>
          rw [headerAttrList_cons_single k0 v0 rest false sensitive hok']
          simp [List.count_cons, hkne, htail]
        | v0 :: v1 :: vr =>
          rw [headerAttrList_cons_multi k0 v0 v1 vr rest false sensitive hok']
          simp [List.count_cons, hkne, htail]

/-- Claim C5: for every int status s, toLogLevel s is defined (it is a total
function) and returns Info when 100 ≤ s < 400, Warn when s ≤ 0 or
400 ≤ s < 500, and Error when s ≥ 500. -/
theorem toLogLevel_spec (s : Int) :
    (100 ≤ s ∧ s < 400 → toLogLevel s = LevelInfo)
    ∧ (s ≤ 0 ∨ (400 ≤ s ∧ s < 500) → toLogLevel s = LevelWarn)
    ∧ (500 ≤ s → toLogLevel s = LevelError) := by
  unfold toLogLevel
  refine ⟨?_, ?_, ?_⟩ <;> intro h <;> split_ifs <;>
    first
      | rfl
      | (exfalso; omega)

/-- Claim C5 witness: toLogLevel at 200, 404 and 500, each hypothesis
discharged at the concrete status. -/
theorem toLogLevel_spec_witness :
    toLogLevel 200 = LevelInfo ∧ toLogLevel 404 = LevelWarn ∧ toLogLevel 500 = LevelError :=
  ⟨(toLogLevel_spec 200).1 (by norm_num),
   (toLogLevel_spec 404).2.1 (Or.inr (by norm_num)),
   (toLogLevel_spec 500).2.2 (by norm_num)⟩

/-- Claim C10: for every int status, toLogLevel returns one of exactly
Info, Warn, Error; it never returns Fatal, Trace or Debug, and status 500
(a recovered panic finalized with 500) is emitted at Error, not Fatal. -/
theorem toLogLevel_range (s : Int) :
    (toLogLevel s = LevelInfo ∨ toLogLevel s = LevelWarn ∨ toLogLevel s = LevelError)
    ∧ toLogLevel 500 = LevelError
    ∧ LevelError ≠ LevelFatal
    ∧ toLogLevel s ≠ LevelFatal
    ∧ toLogLevel s ≠ LevelTrace
    ∧ toLogLevel s ≠ LevelDebug := by
  refine ⟨?_, by decide, by decide, ?_, ?_, ?_⟩ <;>
    · unfold toLogLevel
      split_ifs <;> simp [LevelInfo, LevelWarn, LevelError, LevelFatal, LevelTrace, LevelDebug]

/-- Claim C2: GetLogEntry with no active Log Entry in the request's context
store. chi's middleware.GetLogEntry hands back the nil interface value, and
the unchecked `.(*LogEntry)` assertion in src/httplog.go then panics — the
code does NOT fail gracefully, contradicting the spec's
"must never panic the caller". -/
theorem GetLogEntry_panics_when_absent :
    GetLogEntry none = Except.error GoPanic.typeAssertionFailed := rfl

/-- Claim C7: LogEntrySetAttr with an active entry replaces the entry's
handle with handle.With(attribute); with no active entry it is a silent
no-op (the comma-ok type assertion makes it total — no panic, no failure
propagated). -/
theorem LogEntrySetAttr_spec (e : LogEntry) (a : Attr) :
    LogEntrySetAttr none a = none
    ∧ LogEntrySetAttr (some e) a = some { e with l := e.l.With [a] }
    ∧ (LogEntrySetAttr (some e) a).map (fun x => x.l.attrs) = some (e.l.attrs ++ [a]) :=
  ⟨rfl, rfl, rfl⟩

/-- Claim C4: Write emits exactly one record, at severity toLogLevel(status),
carrying all previously accumulated attributes; Panic emits no record and
only accumulates attributes; hence a request that panics 0 or 1 times before
Write still emits exactly one record in total. -/
theorem single_emission (le : LogEntry) (status bytes : Int) (header : Header)
    (elapsed : Int) (extra : Unit) (v stack : String) :
    (le.Write status bytes header elapsed extra).2.length = 1
    ∧ (∃ m rest, (le.Write status bytes header elapsed extra).2
        = [{ level := toLogLevel status, msg := m, attrs := le.l.attrs ++ rest }])
    ∧ (le.Panic v stack).2 = []
    ∧ ((le.Panic v stack).2
        ++ ((le.Panic v stack).1.Write status bytes header elapsed extra).2).length = 1 := by
  refine ⟨rfl, ⟨_, _, rfl⟩, rfl, rfl⟩

/-- Claim C3 counterexample: two distinct Go map keys "Foo" and "FOO" share
the lower-casing "foo"; with leak=false and an empty sensitive set the
redactor emits the key "foo" twice, so "every other key whose value sequence
is non-empty appears exactly once" fails on this header collection. -/
theorem redaction_duplicate_lowercased_keys :
    ¬ (∀ kv ∈ ([("Foo", ["a"]), ("FOO", ["b"])] : Header), kv.2 ≠ [] →
        memberOfSet (some []) (strToLower kv.1) = false →
        ((headerAttrList [("Foo", ["a"]), ("FOO", ["b"])] false (some [])).map
          Prod.fst).count (strToLower kv.1) = 1) := by
  intro h
  have h1 := h ("Foo", ["a"]) (by simp) (by simp) (by decide)
  have h2 : ((headerAttrList [("Foo", ["a"]), ("FOO", ["b"])] false (some [])).map
      Prod.fst).count (strToLower ("Foo", ["a"]).1) = 2 := by decide
  rw [h1] at h2
  exact absurd h2 (by decide)

/-- Claim C3 (amended): for every header collection whose keys have pairwise
distinct lower-casings (as Go's canonicalized header keys do), every
sensitive set and leak=false: the output group contains no attribute whose
key (the lower-cased header name — lower-casing it again is the identity)
is a member of the sensitive set, and every other key with a non-empty value
sequence appears exactly once under its lower-cased name. -/
theorem redaction_spec (header : Header) (sensitive : StrSet)
    (hnodup : (header.map (fun kv => strToLower kv.1)).Nodup) :
    (∀ a ∈ headerAttrList header false sensitive, memberOfSet sensitive a.1 = false)
    ∧ (∀ kv ∈ header, kv.2 ≠ [] → memberOfSet sensitive (strToLower kv.1) = false →
        ((headerAttrList header false sensitive).map Prod.fst).count (strToLower kv.1) = 1) :=
  ⟨headerAttrList_key_not_sensitive header sensitive,
   headerAttrList_count_one header sensitive hnodup⟩

/-- Claim C3 witness: the amended theorem applied to the header
[Authorization: s, X-Data: d] with sensitive set {authorization}. -/
theorem redaction_spec_witness :
    (((([("Authorization", ["s"]), ("X-Data", ["d"])] : Header)).map
        (fun kv => strToLower kv.1)).Nodup)
    ∧ ((∀ a ∈ headerAttrList [("Authorization", ["s"]), ("X-Data", ["d"])] false
          (some ["authorization"]),
        memberOfSet (some ["authorization"]) a.1 = false)
      ∧ (∀ kv ∈ ([("Authorization", ["s"]), ("X-Data", ["d"])] : Header),
          kv.2 ≠ [] → memberOfSet (some ["authorization"]) (strToLower kv.1) = false →
          ((headerAttrList [("Authorization", ["s"]), ("X-Data", ["d"])] false
            (some ["authorization"])).map Prod.fst).count (strToLower kv.1) = 1)) :=
  ⟨by decide,
   redaction_spec [("Authorization", ["s"]), ("X-Data", ["d"])] (some ["authorization"])
     (by decide)⟩

/-- Claim C6: a header the redactor emits carries, when it has exactly one
value, that bare value; with several values the string with each value
individually bracketed, joined by "], [" — which is exactly the spec's
"[v1], [v2], ..." (specValueRendering). A header with an empty value
sequence is skipped entirely. -/
theorem header_value_rendering (header : Header) (k : String) (vs : List String)
    (leak : Bool) (sensitive : StrSet) (rest2 : Header)
    (hmem : (k, vs) ∈ header) (hne : vs ≠ [])
    (hpass : (memberOfSet sensitive (strToLower k) && !leak) = false) :
    (strToLower k, AttrValue.str (specValueRendering vs))
        ∈ headerAttrList header leak sensitive
    ∧ headerAttrList ((k, []) :: rest2) leak sensitive
        = headerAttrList rest2 leak sensitive := by
  refine ⟨?_, headerAttrList_cons_empty k rest2 leak sensitive⟩
  induction header with
  | nil => simp at hmem
  | cons hd rest ih =>
    obtain ⟨k0, v⟩ := hd
    rcases List.mem_cons.mp hmem with heq | hmem2
    · obtain ⟨rfl, rfl⟩ := Prod.mk.injEq k vs k0 v |>.mp heq
      match vs, hne with
      | [], hne => exact absurd rfl hne
      | [v0], _ =>
        rw [headerAttrList_cons_single k v0 rest leak sensitive hpass]
        exact List.mem_cons_self _ _
      | v0 :: v1 :: vr, _ =>
        rw [headerAttrList_cons_multi k v0 v1 vr rest leak sensitive hpass]
        have hb : specValueRendering (v0 :: v1 :: vr)
            = "[" ++ stringsJoin (v0 :: v1 :: vr) "], [" ++ "]" :=
          (bracket_join v0 (v1 :: vr)).symm
        rw [hb]
        exact List.mem_cons_self _ _
    · have htail := ih hmem2
      by_cases hok : (memberOfSet sensitive (strToLower k0) && !leak) = true
      · rw [headerAttrList_cons_sensitive k0 v rest leak sensitive hok]
        exact htail
      · have hok' := Bool.not_eq_true _ |>.mp hok
        match v with
        | [] =>
          rw [headerAttrList_cons_empty k0 rest leak sensitive]
          exact htail
        | [w0] =>
          rw [headerAttrList_cons_single k0 w0 rest leak sensitive hok']
          exact List.mem_cons_of_mem _ htail
        | w0 :: w1 :: wr =>
          rw [headerAttrList_cons_multi k0 w0 w1 wr rest leak sensitive hok']
          exact List.mem_cons_of_mem _ htail

/-- Claim C6 witness: the multi-valued header X: [a, b] with leak=true,
rendered under the documented join scheme, and the skip of an empty-valued
header. -/
theorem header_value_rendering_witness :
    (("X", ["a", "b"]) ∈ ([("X", ["a", "b"])] : Header))
    ∧ (["a", "b"] : List String) ≠ []
    ∧ (memberOfSet (some []) (strToLower "X") && !true) = false
    ∧ ((strToLower "X", AttrValue.str (specValueRendering ["a", "b"]))
          ∈ headerAttrList [("X", ["a", "b"])] true (some [])
        ∧ headerAttrList (("X", []) :: ([] : Header)) true (some [])
            = headerAttrList ([] : Header) true (some [])) :=
  ⟨List.mem_cons_self _ _, by simp, rfl,
   header_value_rendering [("X", ["a", "b"])] "X" ["a", "b"] true (some []) []
     (List.mem_cons_self _ _) (by simp) rfl⟩

/-- Claim C8: with concise=true the request group built by req contains only
the keys uri and method, and the response group built by Write contains only
the keys size and status. -/
theorem concise_group_keys (le : LogEntry) (r : Request) (status bytes : Int)
    (header : Header) (elapsed : Int) (extra : Unit) (hc : le.concise = true) :
    (∃ g, (le.req r).l.attrs
        = le.l.attrs
          ++ (if r.reqID ≠ "" then [("id", AttrValue.str r.reqID)] else [])
          ++ [("request", AttrValue.group g)]
      ∧ g.map Prod.fst = ["uri", "method"])
    ∧ (∃ g, (le.Write status bytes header elapsed extra).1.l.attrs
        = le.l.attrs ++ [("response", AttrValue.group g)]
      ∧ g.map Prod.fst = ["size", "status"]) := by
  constructor
  · refine ⟨[("uri", AttrValue.str r.requestURI), ("method", AttrValue.str r.method)], ?_, rfl⟩
    by_cases hid : r.reqID = "" <;>
      simp [LogEntry.req, Logger.With, hc, hid]
  · refine ⟨[("size", AttrValue.int bytes),
      ("status", AttrValue.group
        [("code", AttrValue.int status),
         ("msg", AttrValue.str (statusText status))])], ?_, rfl⟩
    simp [LogEntry.Write, Logger.With, hc]

/-- A concrete concise-mode entry used to witness the concise-groups claim. -/
def witnessEntry : LogEntry :=
  { l := slogDefault, msg := "", concise := true, sensitive := none, leak := false }

/-- A concrete inbound request used to witness the concise-groups claim. -/
def witnessRequest : Request :=
  { requestURI := "/hello?x=1", method := "GET", host := "example.com", path := "/hello",
    proto := "HTTP/1.1", remoteAddr := "127.0.0.1:9000", header := [], reqID := "" }

/-- Claim C8 witness: the concise-groups theorem at a concrete concise entry,
request and completion, the concise hypothesis discharged there. -/
theorem concise_group_keys_witness :
    witnessEntry.concise = true
    ∧ ((∃ g, (witnessEntry.req witnessRequest).l.attrs
        = witnessEntry.l.attrs
          ++ (if witnessRequest.reqID ≠ "" then [("id", AttrValue.str witnessRequest.reqID)]
              else [])
          ++ [("request", AttrValue.group g)]
      ∧ g.map Prod.fst = ["uri", "method"])
    ∧ (∃ g, (witnessEntry.Write 200 7 [] 3 ()).1.l.attrs
        = witnessEntry.l.attrs ++ [("response", AttrValue.group g)]
      ∧ g.map Prod.fst = ["size", "status"])) :=
  ⟨rfl, concise_group_keys witnessEntry witnessRequest 200 7 [] 3 () rfl⟩

/-- Claim C1: the default keys are NOT in the sensitive set the entries
actually use. WithSensitive writes "authorization"/"cookie"/"set-cookie"
into the caller's map after taking the internal copy, so with
WithSensitive(empty map) the evaluated options hold an internal set without
"authorization" and the Authorization header of a request is emitted; with
no WithSensitive option the set stays the nil map and the header is emitted
too; and WithSensitive(nil) even panics on the nil-map write. -/
theorem sensitive_defaults_left_out :
    evaluateLoggerOptions [LoggerOption.withSensitive (some [])]
      = Except.ok { l := slogDefault, concise := false, sensitive := some [], leak := false }
    ∧ memberOfSet (some []) "authorization" = false
    ∧ headerAttrList [("Authorization", ["secret"])] false (some [])
      = [("authorization", AttrValue.str "secret")]
    ∧ evaluateLoggerOptions []
      = Except.ok { l := slogDefault, concise := false, sensitive := none, leak := false }
    ∧ headerAttrList [("Authorization", ["secret"])] false none
      = [("authorization", AttrValue.str "secret")]
    ∧ evaluateLoggerOptions [LoggerOption.withSensitive none]
      = Except.error GoPanic.nilMapWrite :=
  ⟨rfl, rfl, rfl, rfl, rfl, rfl⟩

/-- Claim C9: WithSensitive with a non-nil map s copies only s's original
keys into the internal sensitive set, then mutates the CALLER'S map, which
afterwards additionally holds "authorization", "cookie" and "set-cookie";
with s = nil the internal set is created empty and the subsequent writes
target the nil argument — which in Go is the nil-map-write panic the model
records. -/
theorem WithSensitive_frame_effect (m : List String) (o : loggerOptions) :
    (∃ s2 o2, WithSensitive (some m) o = Except.ok (some s2, o2)
      ∧ (∀ k, k ∈ s2 ↔ (k ∈ m ∨ k = "authorization" ∨ k = "cookie" ∨ k = "set-cookie"))
      ∧ o2.sensitive = some m
      ∧ o2.l = o.l ∧ o2.concise = o.concise ∧ o2.leak = o.leak)
    ∧ (∃ o2, WithSensitive none o = Except.error (GoPanic.nilMapWrite, o2)
      ∧ o2.sensitive = some []) := by
  constructor
  · refine ⟨_, _, rfl, ?_, rfl, rfl, rfl, rfl⟩
    intro k
    simp [WithSensitive, mem_insertKey, or_assoc]
  · exact ⟨_, rfl, rfl⟩

end HttpSlog
